import Mathlib

/-!
Verification of the OmniConnect session coordinator and its client services.

The server side (server/server.js: the matchmaking queue, pair registry and
message relay) is embedded as a pure step function over an explicit
`ServerState`; the JavaScript `Map`s become association lists observed only
through get / set / delete, the waiting-queue array becomes a `List Nat`, and
every `ws.send` is recorded in an outbox.  The client side
(SignalingService.js, WebRTCService.js, App.jsx) is embedded as pure state
transformers over small records.  Participant ids and opaque payloads (SDP
blobs, ICE candidates) are modelled as `Nat`.
-/

namespace OmniConnect

/-- Messages a client sends to the server, as dispatched by the `switch` in
`ws.on('message')`.  Opaque payloads are `Nat`. -/
inductive CMsg where
  | findPartner
  | offer (sdp : Nat)
  | answer (sdp : Nat)
  | iceCandidate (cand : Nat)
  | skip
  | disconnect
  | unknown
deriving DecidableEq, Repr

/-- Messages the server sends to a client. -/
inductive SMsg where
  | connected (userId : Nat)
  | waiting
  | paired (partnerId : Nat)
  | offer (sdp : Nat) (fromId : Nat)
  | answer (sdp : Nat) (fromId : Nat)
  | iceCandidate (cand : Nat) (fromId : Nat)
  | partnerLeft
  | disconnected
deriving DecidableEq, Repr

/-- `Map.get` on an association list (first binding wins). -/
def alGet (m : List (Nat × Nat)) (k : Nat) : Option Nat :=
  match m with
  | [] => none
  | (a, b) :: rest => if a = k then some b else alGet rest k

/-- `Map.delete`: remove every binding of key `k`. -/
def alDelete (m : List (Nat × Nat)) (k : Nat) : List (Nat × Nat) :=
  m.filter (fun p => p.1 != k)

/-- `Map.set`: bind `k` to `v`, replacing any previous binding.  Only
`alGet` / `alDelete` observe the list, so the position of the binding is
irrelevant. -/
def alSet (m : List (Nat × Nat)) (k v : Nat) : List (Nat × Nat) :=
  (k, v) :: alDelete m k

/-- `removeFromQueue` (server.js): `indexOf` + `splice(index, 1)` removes the
first occurrence of `u`, and is a no-op when `u` is absent. -/
def removeFromQueue : List Nat → Nat → List Nat
  | [], _ => []
  | x :: xs, u => if x = u then xs else x :: removeFromQueue xs u

/-- The server's mutable state: `clients` (ids with an open socket),
`waitingQueue`, `activePairs`, plus an outbox recording every message handed
to `ws.send`, tagged with its destination id. -/
structure ServerState where
  clients : List Nat
  waitingQueue : List Nat
  activePairs : List (Nat × Nat)
  outbox : List (Nat × SMsg)
deriving DecidableEq, Repr

def initialState : ServerState := ⟨[], [], [], []⟩

/-- `sendToClient` (server.js): deliver only when the destination is a
registered client with an open socket. -/
def sendToClient (clients : List Nat) (outbox : List (Nat × SMsg))
    (cid : Nat) (m : SMsg) : List (Nat × SMsg) :=
  if cid ∈ clients then outbox ++ [(cid, m)] else outbox

/-- `pairUsers` (server.js): install both directions in `activePairs`, then
notify `userId1` and `userId2` in that order. -/
def pairUsers (s : ServerState) (userId1 userId2 : Nat) : ServerState :=
  let pairs := alSet (alSet s.activePairs userId1 userId2) userId2 userId1
  let ob1 := sendToClient s.clients s.outbox userId1 (SMsg.paired userId2)
  let ob2 := sendToClient s.clients ob1 userId2 (SMsg.paired userId1)
  { s with activePairs := pairs, outbox := ob2 }

/-- The `find-partner` case of the message handler: push the sender unless it
is already queued; if the queue then holds at least two ids, shift the two
oldest and pair them, otherwise acknowledge with `waiting`.  The handler
consults only the queue — it never checks `activePairs`. -/
def handleFindPartner (s : ServerState) (u : Nat) : ServerState :=
  if u ∈ s.waitingQueue then s
  else
    match s.waitingQueue ++ [u] with
    | u1 :: u2 :: rest => pairUsers { s with waitingQueue := rest } u1 u2
    | q =>
        { s with
          waitingQueue := q,
          outbox := sendToClient s.clients s.outbox u SMsg.waiting }

/-- The `skip` / `disconnect` case of the message handler: notify and unlink
the partner when one exists, remove the sender from the queue, then
acknowledge the sender with `disconnected`. -/
def handleSkipOrDisconnect (s : ServerState) (u : Nat) : ServerState :=
  let s1 :=
    match alGet s.activePairs u with
    | some p =>
        { s with
          outbox := sendToClient s.clients s.outbox p SMsg.partnerLeft,
          activePairs := alDelete (alDelete s.activePairs p) u }
    | none => s
  { s1 with
    waitingQueue := removeFromQueue s1.waitingQueue u,
    outbox := sendToClient s1.clients s1.outbox u SMsg.disconnected }

/-- `handleDisconnect` (server.js), run on transport closure: drop the id
from the queue, notify and unlink the partner when one exists, then remove
the client record. -/
def handleDisconnect (s : ServerState) (u : Nat) : ServerState :=
  let s1 := { s with waitingQueue := removeFromQueue s.waitingQueue u }
  let s2 :=
    match alGet s1.activePairs u with
    | some p =>
        { s1 with
          outbox := sendToClient s1.clients s1.outbox p SMsg.partnerLeft,
          activePairs := alDelete (alDelete s1.activePairs p) u }
    | none => s1
  { s2 with clients := s2.clients.filter (fun c => c != u) }

/-- The `switch (message.type)` dispatch of `ws.on('message')`. -/
def handleMessage (s : ServerState) (u : Nat) : CMsg → ServerState
  | CMsg.findPartner => handleFindPartner s u
  | CMsg.offer sdp =>
      match alGet s.activePairs u with
      | some p =>
          { s with outbox := sendToClient s.clients s.outbox p (SMsg.offer sdp u) }
      | none => s
  | CMsg.answer sdp =>
      match alGet s.activePairs u with
      | some p =>
          { s with outbox := sendToClient s.clients s.outbox p (SMsg.answer sdp u) }
      | none => s
  | CMsg.iceCandidate cand =>
      match alGet s.activePairs u with
      | some p =>
          { s with outbox := sendToClient s.clients s.outbox p (SMsg.iceCandidate cand u) }
      | none => s
  | CMsg.skip => handleSkipOrDisconnect s u
  | CMsg.disconnect => handleSkipOrDisconnect s u
  | CMsg.unknown => s

/-- Externally visible coordinator events: a new connection (`wss.on`, which
registers the client and sends its id), a client message, and a transport
closure. -/
inductive Event where
  | connect (u : Nat)
  | msg (u : Nat) (m : CMsg)
  | close (u : Nat)
deriving DecidableEq, Repr

def stepEv (s : ServerState) : Event → ServerState
  | Event.connect u =>
      { s with clients := s.clients ++ [u],
               outbox := s.outbox ++ [(u, SMsg.connected u)] }
  | Event.msg u m => handleMessage s u m
  | Event.close u => handleDisconnect s u

def runTrace (es : List Event) : ServerState :=
  es.foldl stepEv initialState

/-- Well-formed events: connections carry a fresh id (`uuidv4`), messages
arrive only from registered clients (the handler is installed per socket). -/
def eventOk (s : ServerState) : Event → Bool
  | Event.connect u => decide (u ∉ s.clients)
  | Event.msg u _ => decide (u ∈ s.clients)
  | Event.close _ => true

/-- Well-formed events where, in addition, every `find-partner` comes from a
sender that currently has no entry in the pair registry. -/
def eventOkU (s : ServerState) : Event → Bool
  | Event.connect u => decide (u ∉ s.clients)
  | Event.msg u CMsg.findPartner =>
      decide (u ∈ s.clients) && (alGet s.activePairs u).isNone
  | Event.msg u _ => decide (u ∈ s.clients)
  | Event.close _ => true

/-- States reachable from the empty server by events satisfying `ok`. -/
inductive Reach (ok : ServerState → Event → Bool) : ServerState → Prop
  | init : Reach ok initialState
  | step {s e} : Reach ok s → ok s e = true → Reach ok (stepEv s e)

def Reachable (s : ServerState) : Prop := Reach eventOk s

def ReachableU (s : ServerState) : Prop := Reach eventOkU s

/-- All guards along a trace hold. -/
def okTrace (ok : ServerState → Event → Bool) : ServerState → List Event → Bool
  | _, [] => true
  | s, e :: es => ok s e && okTrace ok (stepEv s e) es

/-- The pair relation never maps an id to itself. -/
def PairsIrrefl (m : List (Nat × Nat)) : Prop :=
  ∀ a b, alGet m a = some b → a ≠ b

/-- The pair relation is symmetric. -/
def PairsSym (m : List (Nat × Nat)) : Prop :=
  ∀ a b, alGet m a = some b → alGet m b = some a

/-- No queued id has an entry in the pair registry. -/
def QueueUnpaired (s : ServerState) : Prop :=
  ∀ u, u ∈ s.waitingQueue → alGet s.activePairs u = none

/-- Invariant preserved by every event: duplicate-free queue and
non-self-referential pairs. -/
def BaseInv (s : ServerState) : Prop :=
  s.waitingQueue.Nodup ∧ PairsIrrefl s.activePairs

/-- Invariant preserved when no paired participant sends `find-partner`. -/
def UInv (s : ServerState) : Prop :=
  s.waitingQueue.Nodup ∧ PairsIrrefl s.activePairs ∧
    PairsSym s.activePairs ∧ QueueUnpaired s

/-- The (clients, queue, pairs) projection of the server state — the
coordinator state proper, without the message log. -/
def coordState (s : ServerState) : List Nat × List Nat × List (Nat × Nat) :=
  (s.clients, s.waitingQueue, s.activePairs)

/-- `WebSocket.readyState` values. -/
inductive ReadyState where
  | connecting
  | opened
  | closing
  | closedState
deriving DecidableEq, Repr

/-- Client-side `SignalingService` state: `ws` is `this.ws` together with its
`readyState` (`none` when the field is null), `sent` records every message
handed to `ws.send`, `scheduled` records the delay of every reconnect timer
installed by `setTimeout`. -/
structure SigClient where
  ws : Option ReadyState
  userId : Option Nat
  partnerId : Option Nat
  reconnectAttempts : Nat
  sent : List CMsg
  scheduled : List Nat
deriving DecidableEq, Repr

def sigInit : SigClient :=
  { ws := none, userId := none, partnerId := none,
    reconnectAttempts := 0, sent := [], scheduled := [] }

/-- `SignalingService.send`: transmit only over an existing socket in the
OPEN state and report `true`; otherwise log, drop the message and report
`false` — no buffering, no retry. -/
def sigSend (c : SigClient) (m : CMsg) : SigClient × Bool :=
  match c.ws with
  | some ReadyState.opened => ({ c with sent := c.sent ++ [m] }, true)
  | _ => (c, false)

/-- `SignalingService.findPartner`. -/
def sigFindPartner (c : SigClient) : SigClient :=
  (sigSend c CMsg.findPartner).1

/-- `SignalingService.skip`: send `skip`, then unconditionally clear the
local `partnerId`. -/
def sigSkip (c : SigClient) : SigClient :=
  { (sigSend c CMsg.skip).1 with partnerId := none }

/-- `SignalingService.disconnect`: send `disconnect`, then unconditionally
clear the local `partnerId`. -/
def sigDisconnect (c : SigClient) : SigClient :=
  { (sigSend c CMsg.disconnect).1 with partnerId := none }

/-- `maxReconnectAttempts` (SignalingService constructor). -/
def maxReconnectAttempts : Nat := 5

/-- The reconnect delay computed by `attemptReconnect` after the counter has
been incremented to `n`: `Math.min(1000 * Math.pow(2, n), 30000)`. -/
def reconnectDelay (n : Nat) : Nat := min (1000 * 2 ^ n) 30000

/-- `SignalingService.attemptReconnect`: while fewer than
`maxReconnectAttempts` attempts have been used, increment the counter and
schedule one `connect` after the backoff delay; otherwise do nothing. -/
def attemptReconnect (c : SigClient) : SigClient :=
  if c.reconnectAttempts < maxReconnectAttempts then
    { c with
      reconnectAttempts := c.reconnectAttempts + 1,
      scheduled := c.scheduled ++ [reconnectDelay (c.reconnectAttempts + 1)] }
  else c

/-- `SignalingService.close`: when a socket exists, call `ws.close()` (the
socket's close event will still fire afterwards) and null out `ws`,
`userId` and `partnerId`.  No flag records that the closure was
user-initiated. -/
def sigClose (c : SigClient) : SigClient :=
  match c.ws with
  | some _ => { c with ws := none, userId := none, partnerId := none }
  | none => c

/-- The `partner-left` case of `SignalingService.handleMessage`: clear
`partnerId` and invoke the `onPartnerLeft` callback (which in App.jsx only
tears down the peer connection); nothing is sent to the server. -/
def handlePartnerLeft (c : SigClient) : SigClient :=
  { c with partnerId := none }

/-- Lifecycle events of the signaling transport, as seen by one
`SignalingService`: a `connect()` call creating a fresh socket, the socket's
open event (`ws.onopen`, which resets the attempt counter), a user call to
`close()`, and a socket close event (`ws.onclose`, whose handler invokes
`attemptReconnect` unconditionally — it fires for dropped sockets and for
sockets the user closed alike, since `close()` sets no flag). -/
inductive SigEv where
  | connectCall
  | wsOpenEvent
  | userClose
  | wsCloseEvent
deriving DecidableEq, Repr

def sigStep (c : SigClient) : SigEv → SigClient
  | SigEv.connectCall => { c with ws := some ReadyState.connecting }
  | SigEv.wsOpenEvent => { c with ws := some ReadyState.opened, reconnectAttempts := 0 }
  | SigEv.userClose => sigClose c
  | SigEv.wsCloseEvent => attemptReconnect c

def sigRun (es : List SigEv) : SigClient :=
  es.foldl sigStep sigInit

/-- Client-side negotiation state for one pairing (App.jsx together with its
`WebRTCService`): the React `isInitiator` flag, whether local / remote
descriptions have been set on the peer connection, and the messages sent to
the signaling server. -/
structure AppClient where
  isInitiator : Bool
  localDescSet : Bool
  remoteDescSet : Bool
  sentMsgs : List CMsg
deriving DecidableEq, Repr

def appInit : AppClient :=
  { isInitiator := false, localDescSet := false, remoteDescSet := false, sentMsgs := [] }

/-- `signaling.onPaired` (App.jsx): unconditionally `setIsInitiator(true)`,
create an offer (creating the peer connection and setting the local
description) and send it.  Every recipient of a `paired` message runs
this. -/
def appOnPaired (c : AppClient) (sdp : Nat) : AppClient :=
  { c with
    isInitiator := true,
    localDescSet := true,
    sentMsgs := c.sentMsgs ++ [CMsg.offer sdp] }

/-- `signaling.onOffer` (App.jsx): `setIsInitiator(false)`, create an answer
(setting the remote description from the offer and a local description) and
send it. -/
def appOnOffer (c : AppClient) (sdp : Nat) : AppClient :=
  { c with
    isInitiator := false,
    localDescSet := true,
    remoteDescSet := true,
    sentMsgs := c.sentMsgs ++ [CMsg.answer sdp] }

/-- `skipPartner` (App.jsx): tear down the peer connection, then
`signaling.skip()`, then immediately `signaling.findPartner()`. -/
def appSkipPartner (c : SigClient) : SigClient :=
  sigFindPartner (sigSkip c)

/-- `WebRTCService` state relevant to candidate handling: whether
`this.peerConnection` is non-null, whether a remote description has been set
on it, and the candidates handed to `peerConnection.addIceCandidate`, in
order. -/
structure RTCState where
  pcExists : Bool
  remoteDescSet : Bool
  applied : List Nat
deriving DecidableEq, Repr

/-- `WebRTCService.addIceCandidate`: when the peer connection exists and the
candidate is non-null, hand the candidate to the peer connection at once —
there is no check of the remote description and no pending buffer; otherwise
do nothing. -/
def addIceCandidate (r : RTCState) (cand : Option Nat) : RTCState :=
  match cand with
  | some c => if r.pcExists then { r with applied := r.applied ++ [c] } else r
  | none => r

/-- Receiving a sequence of relayed candidates (`signaling.onIceCandidate`
calls `addIceCandidate` on each, in arrival order). -/
def processCandidates (r : RTCState) (cs : List (Option Nat)) : RTCState :=
  cs.foldl addIceCandidate r

/-- Modelled from the spec: the candidate buffering the specification
describes for `NegotiationSession.pendingCandidates` — a candidate arriving
before a remote description exists is queued, and the queue is flushed in
arrival order when the remote description is set.  No such buffer exists in
`WebRTCService`; this definition exists only to be compared with
`addIceCandidate`. -/
structure SpecIceState where
  remoteDescSet : Bool
  pending : List Nat
  applied : List Nat
deriving DecidableEq, Repr

/-- Modelled from the spec: apply immediately when a remote description is
set, otherwise buffer. -/
def specAddIceCandidate (r : SpecIceState) (c : Nat) : SpecIceState :=
  if r.remoteDescSet then { r with applied := r.applied ++ [c] }
  else { r with pending := r.pending ++ [c] }

theorem alDelete_cons (x y k : Nat) (rest : List (Nat × Nat)) :
    alDelete ((x, y) :: rest) k =
      if x = k then alDelete rest k else (x, y) :: alDelete rest k := by
  rcases eq_or_ne x k with hxk | hxk <;> simp [alDelete, hxk]

theorem alGet_alDelete (m : List (Nat × Nat)) (k a : Nat) :
    alGet (alDelete m k) a = if a = k then none else alGet m a := by
  induction m with
  | nil => simp [alGet, alDelete]
  | cons p rest ih =>
      obtain ⟨x, y⟩ := p
      rw [alDelete_cons]
      rcases eq_or_ne x k with hxk | hxk
      · subst hxk
        rw [if_pos rfl, ih]
        rcases eq_or_ne a x with hax | hax
        · simp [hax]
        · simp [alGet, hax, Ne.symm hax]
      · rw [if_neg hxk]
        rcases eq_or_ne x a with hax | hax
        · subst hax
          simp [alGet, hxk]
        · simp [alGet, hax, ih]

theorem alGet_alSet (m : List (Nat × Nat)) (k v a : Nat) :
    alGet (alSet m k v) a = if a = k then some v else alGet m a := by
  rcases eq_or_ne a k with hak | hak
  · subst hak
    simp [alSet, alGet]
  · simp [alSet, alGet, Ne.symm hak, hak, alGet_alDelete]

theorem alGet_nil (a : Nat) : alGet [] a = none := rfl

theorem alGet_alDelete_self (m : List (Nat × Nat)) (k : Nat) :
    alGet (alDelete m k) k = none := by
  simp [alGet_alDelete]

theorem alGet_alDelete_none {m : List (Nat × Nat)} {a : Nat} (k : Nat)
    (h : alGet m a = none) : alGet (alDelete m k) a = none := by
  rw [alGet_alDelete]
  by_cases hak : a = k <;> simp [hak, h]

theorem mem_removeFromQueue {l : List Nat} {u a : Nat}
    (h : a ∈ removeFromQueue l u) : a ∈ l := by
  induction l with
  | nil => exact absurd h (by simp [removeFromQueue])
  | cons x xs ih =>
      by_cases hxu : x = u
      · simp [removeFromQueue, hxu] at h
        exact List.mem_cons_of_mem _ h
      · simp [removeFromQueue, hxu] at h
        rcases h with h | h
        · exact h ▸ List.mem_cons_self _ _
        · exact List.mem_cons_of_mem _ (ih h)

theorem nodup_removeFromQueue {l : List Nat} (u : Nat) (h : l.Nodup) :
    (removeFromQueue l u).Nodup := by
  induction l with
  | nil => exact h
  | cons x xs ih =>
      rcases List.nodup_cons.mp h with ⟨hx, hxs⟩
      rcases eq_or_ne x u with hxu | hxu
      · simpa [removeFromQueue, hxu] using hxs
      · simp only [removeFromQueue, if_neg hxu]
        exact List.nodup_cons.mpr ⟨fun hm => hx (mem_removeFromQueue hm), ih hxs⟩

theorem not_mem_removeFromQueue_self {l : List Nat} (u : Nat) (h : l.Nodup) :
    u ∉ removeFromQueue l u := by
  induction l with
  | nil => simp [removeFromQueue]
  | cons x xs ih =>
      rcases List.nodup_cons.mp h with ⟨hx, hxs⟩
      rcases eq_or_ne x u with hxu | hxu
      · subst hxu
        simpa [removeFromQueue] using hx
      · simp only [removeFromQueue, if_neg hxu, List.mem_cons]
        rintro (he | hm)
        · exact hxu he.symm
        · exact ih hxs hm

theorem removeFromQueue_of_not_mem {l : List Nat} {u : Nat} (h : u ∉ l) :
    removeFromQueue l u = l := by
  induction l with
  | nil => rfl
  | cons x xs ih =>
      have hxu : x ≠ u := fun he => h (he ▸ List.mem_cons_self _ _)
      have hxs : u ∉ xs := fun hm => h (List.mem_cons_of_mem _ hm)
      simp [removeFromQueue, hxu, ih hxs]

theorem pairsSym_not_value {m : List (Nat × Nat)} (hs : PairsSym m) {k : Nat}
    (hk : alGet m k = none) : ∀ x, alGet m x ≠ some k := by
  intro x hx
  have := hs x k hx
  rw [hk] at this
  exact Option.noConfusion this

theorem pairsIrrefl_insert_pair {m : List (Nat × Nat)} (hi : PairsIrrefl m)
    {u1 u2 : Nat} (hne : u1 ≠ u2) :
    PairsIrrefl (alSet (alSet m u1 u2) u2 u1) := by
  intro a b hab
  rw [alGet_alSet, alGet_alSet] at hab
  rcases eq_or_ne a u2 with h2 | h2
  · rw [if_pos h2] at hab
    cases hab
    exact fun he => hne (h2 ▸ he).symm
  · rw [if_neg h2] at hab
    rcases eq_or_ne a u1 with h1 | h1
    · rw [if_pos h1] at hab
      cases hab
      exact fun he => hne (h1 ▸ he)
    · rw [if_neg h1] at hab
      exact hi a b hab

theorem pairsSym_insert_pair {m : List (Nat × Nat)} (hs : PairsSym m)
    {u1 u2 : Nat} (h1 : alGet m u1 = none) (h2 : alGet m u2 = none)
    (hne : u1 ≠ u2) :
    PairsSym (alSet (alSet m u1 u2) u2 u1) := by
  intro a b hab
  rw [alGet_alSet, alGet_alSet] at hab
  rcases eq_or_ne a u2 with ha2 | ha2
  · subst ha2
    rw [if_pos rfl] at hab
    injection hab with hb
    subst hb
    rw [alGet_alSet, alGet_alSet, if_neg hne, if_pos rfl]
  · rw [if_neg ha2] at hab
    rcases eq_or_ne a u1 with ha1 | ha1
    · subst ha1
      rw [if_pos rfl] at hab
      injection hab with hb
      subst hb
      rw [alGet_alSet, if_pos rfl]
    · rw [if_neg ha1] at hab
      have hsym := hs a b hab
      have hb1 : b ≠ u1 := fun he => pairsSym_not_value hs h1 a (he ▸ hab)
      have hb2 : b ≠ u2 := fun he => pairsSym_not_value hs h2 a (he ▸ hab)
      rw [alGet_alSet, alGet_alSet, if_neg hb2, if_neg hb1]
      exact hsym

theorem pairsIrrefl_delete {m : List (Nat × Nat)} (hi : PairsIrrefl m)
    (k : Nat) : PairsIrrefl (alDelete m k) := by
  intro a b hab
  rw [alGet_alDelete] at hab
  rcases eq_or_ne a k with hak | hak
  · rw [if_pos hak] at hab
    exact Option.noConfusion hab
  · rw [if_neg hak] at hab
    exact hi a b hab

theorem pairsSym_delete_pair {m : List (Nat × Nat)} (hs : PairsSym m)
    {u p : Nat} (hup : alGet m u = some p) :
    PairsSym (alDelete (alDelete m p) u) := by
  intro a b hab
  rw [alGet_alDelete, alGet_alDelete] at hab
  rcases eq_or_ne a u with hau | hau
  · rw [if_pos hau] at hab
    exact Option.noConfusion hab
  rcases eq_or_ne a p with hap | hap
  · rw [if_neg hau, if_pos hap] at hab
    exact Option.noConfusion hab
  rw [if_neg hau, if_neg hap] at hab
  have hsym := hs a b hab
  have hpu : alGet m p = some u := hs u p hup
  have hbu : b ≠ u := by
    intro he
    rw [he] at hab
    have hua := hs a u hab
    rw [hup] at hua
    injection hua with hpa
    exact hap hpa.symm
  have hbp : b ≠ p := by
    intro he
    rw [he] at hab
    have hpa := hs a p hab
    rw [hpu] at hpa
    injection hpa with hua
    exact hau hua.symm
  rw [alGet_alDelete, alGet_alDelete, if_neg hbu, if_neg hbp]
  exact hsym

theorem nodup_append_singleton {l : List Nat} {u : Nat} (h : l.Nodup)
    (hu : u ∉ l) : (l ++ [u]).Nodup := by
  induction l with
  | nil => simp
  | cons x xs ih =>
      rcases List.nodup_cons.mp h with ⟨hx, hxs⟩
      have hux : u ≠ x := fun he => hu (he ▸ List.mem_cons_self _ _)
      have hu2 : u ∉ xs := fun hm => hu (List.mem_cons_of_mem _ hm)
      refine List.nodup_cons.mpr ⟨?_, ih hxs hu2⟩
      intro hm
      rcases List.mem_append.mp hm with hm2 | hm2
      · exact hx hm2
      · exact hux (List.mem_singleton.mp hm2).symm

/-- Case analysis on a `find-partner` from a sender not already queued:
either the queue was empty (the sender waits alone) or the two oldest entries
of the pushed queue are shifted and paired. -/
theorem handleFindPartner_cases (s : ServerState) (u : Nat)
    (hu : u ∉ s.waitingQueue) :
    (s.waitingQueue = [] ∧ (handleFindPartner s u).waitingQueue = [u] ∧
      (handleFindPartner s u).activePairs = s.activePairs ∧
      (handleFindPartner s u).clients = s.clients) ∨
    (∃ u1 u2 rest, s.waitingQueue ++ [u] = u1 :: u2 :: rest ∧
      (handleFindPartner s u).waitingQueue = rest ∧
      (handleFindPartner s u).activePairs =
        alSet (alSet s.activePairs u1 u2) u2 u1 ∧
      (handleFindPartner s u).clients = s.clients) := by
  cases hqe : s.waitingQueue with
  | nil =>
      left
      exact ⟨rfl, by simp [handleFindPartner, hqe], by simp [handleFindPartner, hqe],
        by simp [handleFindPartner, hqe]⟩
  | cons a as =>
      right
      have hu' : u ∉ a :: as := hqe ▸ hu
      have hua : ¬u = a := fun he => hu' (he ▸ List.mem_cons_self _ _)
      have hu2 : u ∉ as := fun hm => hu' (List.mem_cons_of_mem _ hm)
      cases as with
      | nil =>
          refine ⟨a, u, [], by simp [hqe], ?_, ?_, ?_⟩ <;>
            simp [handleFindPartner, hqe, hua, pairUsers]
      | cons b bs =>
          have hub : ¬u = b := fun he => hu2 (he ▸ List.mem_cons_self _ _)
          have hu3 : u ∉ bs := fun hm => hu2 (List.mem_cons_of_mem _ hm)
          refine ⟨a, b, bs ++ [u], by simp [hqe], ?_, ?_, ?_⟩ <;>
            simp [handleFindPartner, hqe, hua, hub, hu3, pairUsers]

theorem handleSkipOrDisconnect_queue (s : ServerState) (u : Nat) :
    (handleSkipOrDisconnect s u).waitingQueue =
      removeFromQueue s.waitingQueue u := by
  cases hp : alGet s.activePairs u <;> simp [handleSkipOrDisconnect, hp]

theorem handleSkipOrDisconnect_clients (s : ServerState) (u : Nat) :
    (handleSkipOrDisconnect s u).clients = s.clients := by
  cases hp : alGet s.activePairs u <;> simp [handleSkipOrDisconnect, hp]

theorem handleSkipOrDisconnect_pairs_none {s : ServerState} {u : Nat}
    (hp : alGet s.activePairs u = none) :
    (handleSkipOrDisconnect s u).activePairs = s.activePairs := by
  simp [handleSkipOrDisconnect, hp]

theorem handleSkipOrDisconnect_pairs_some {s : ServerState} {u p : Nat}
    (hp : alGet s.activePairs u = some p) :
    (handleSkipOrDisconnect s u).activePairs =
      alDelete (alDelete s.activePairs p) u := by
  simp [handleSkipOrDisconnect, hp]

theorem handleDisconnect_queue (s : ServerState) (u : Nat) :
    (handleDisconnect s u).waitingQueue = removeFromQueue s.waitingQueue u := by
  cases hp : alGet s.activePairs u <;> simp [handleDisconnect, hp]

theorem handleDisconnect_pairs_none {s : ServerState} {u : Nat}
    (hp : alGet s.activePairs u = none) :
    (handleDisconnect s u).activePairs = s.activePairs := by
  simp [handleDisconnect, hp]

theorem handleDisconnect_pairs_some {s : ServerState} {u p : Nat}
    (hp : alGet s.activePairs u = some p) :
    (handleDisconnect s u).activePairs =
      alDelete (alDelete s.activePairs p) u := by
  simp [handleDisconnect, hp]

theorem relay_queue_pairs (s : ServerState) (u sdp : Nat) :
    ((handleMessage s u (CMsg.offer sdp)).waitingQueue = s.waitingQueue ∧
      (handleMessage s u (CMsg.offer sdp)).activePairs = s.activePairs) ∧
    ((handleMessage s u (CMsg.answer sdp)).waitingQueue = s.waitingQueue ∧
      (handleMessage s u (CMsg.answer sdp)).activePairs = s.activePairs) ∧
    ((handleMessage s u (CMsg.iceCandidate sdp)).waitingQueue = s.waitingQueue ∧
      (handleMessage s u (CMsg.iceCandidate sdp)).activePairs = s.activePairs) := by
  cases hp : alGet s.activePairs u <;> simp [handleMessage, hp]

theorem find_preserves_base {s : ServerState} (h : BaseInv s) (u : Nat) :
    BaseInv (handleFindPartner s u) := by
  obtain ⟨hq, hi⟩ := h
  by_cases hu : u ∈ s.waitingQueue
  · simpa [handleFindPartner, hu] using And.intro hq hi
  · rcases handleFindPartner_cases s u hu with
      ⟨hnil, hq', hp', _⟩ | ⟨u1, u2, rest, hpush, hq', hp', _⟩
    · exact ⟨by simp [hq'], by rw [hp']; exact hi⟩
    · have hnd : (s.waitingQueue ++ [u]).Nodup := nodup_append_singleton hq hu
      rw [hpush] at hnd
      rcases List.nodup_cons.mp hnd with ⟨h1, hnd2⟩
      rcases List.nodup_cons.mp hnd2 with ⟨h2, hnd3⟩
      have h12 : u1 ≠ u2 := fun he => h1 (he ▸ List.mem_cons_self _ _)
      refine ⟨by rw [hq']; exact hnd3, ?_⟩
      rw [hp']
      exact pairsIrrefl_insert_pair hi h12

theorem skipOp_preserves_base {s : ServerState} (h : BaseInv s) (u : Nat) :
    BaseInv (handleSkipOrDisconnect s u) := by
  obtain ⟨hq, hi⟩ := h
  refine ⟨?_, ?_⟩
  · rw [handleSkipOrDisconnect_queue]
    exact nodup_removeFromQueue u hq
  · cases hp : alGet s.activePairs u with
    | none => rw [handleSkipOrDisconnect_pairs_none hp]; exact hi
    | some p =>
        rw [handleSkipOrDisconnect_pairs_some hp]
        exact pairsIrrefl_delete (pairsIrrefl_delete hi p) u

theorem close_preserves_base {s : ServerState} (h : BaseInv s) (u : Nat) :
    BaseInv (handleDisconnect s u) := by
  obtain ⟨hq, hi⟩ := h
  refine ⟨?_, ?_⟩
  · rw [handleDisconnect_queue]
    exact nodup_removeFromQueue u hq
  · cases hp : alGet s.activePairs u with
    | none => rw [handleDisconnect_pairs_none hp]; exact hi
    | some p =>
        rw [handleDisconnect_pairs_some hp]
        exact pairsIrrefl_delete (pairsIrrefl_delete hi p) u

theorem stepEv_preserves_base {s : ServerState} (h : BaseInv s) (e : Event) :
    BaseInv (stepEv s e) := by
  obtain ⟨hq, hi⟩ := h
  cases e with
  | connect u => exact ⟨hq, hi⟩
  | close u => exact close_preserves_base ⟨hq, hi⟩ u
  | msg u m =>
      cases m with
      | findPartner => exact find_preserves_base ⟨hq, hi⟩ u
      | offer sdp =>
          exact ⟨(relay_queue_pairs s u sdp).1.1 ▸ hq,
            (relay_queue_pairs s u sdp).1.2 ▸ hi⟩
      | answer sdp =>
          exact ⟨(relay_queue_pairs s u sdp).2.1.1 ▸ hq,
            (relay_queue_pairs s u sdp).2.1.2 ▸ hi⟩
      | iceCandidate cand =>
          exact ⟨(relay_queue_pairs s u cand).2.2.1 ▸ hq,
            (relay_queue_pairs s u cand).2.2.2 ▸ hi⟩
      | skip => exact skipOp_preserves_base ⟨hq, hi⟩ u
      | disconnect => exact skipOp_preserves_base ⟨hq, hi⟩ u
      | unknown => exact ⟨hq, hi⟩

theorem reach_baseInv {ok : ServerState → Event → Bool} {s : ServerState}
    (h : Reach ok s) : BaseInv s := by
  induction h with
  | init =>
      exact ⟨List.nodup_nil, fun a b hab => absurd hab (by simp [alGet, initialState])⟩
  | step _ _ ih => exact stepEv_preserves_base ih _

theorem UInv_of_eq {s t : ServerState} (h : UInv s)
    (hq : t.waitingQueue = s.waitingQueue) (hp : t.activePairs = s.activePairs) :
    UInv t := by
  obtain ⟨h1, h2, h3, h4⟩ := h
  refine ⟨by rw [hq]; exact h1, by rw [hp]; exact h2, by rw [hp]; exact h3, ?_⟩
  intro x hx
  rw [hq] at hx
  rw [hp]
  exact h4 x hx

theorem find_preserves_U {s : ServerState} (h : UInv s) {u : Nat}
    (hguard : alGet s.activePairs u = none) : UInv (handleFindPartner s u) := by
  obtain ⟨hq, hi, hsym, hqu⟩ := h
  by_cases hu : u ∈ s.waitingQueue
  · exact UInv_of_eq ⟨hq, hi, hsym, hqu⟩ (by simp [handleFindPartner, hu])
      (by simp [handleFindPartner, hu])
  · rcases handleFindPartner_cases s u hu with
      ⟨hnil, hq', hp', _⟩ | ⟨u1, u2, rest, hpush, hq', hp', _⟩
    · refine ⟨by rw [hq']; simp, by rw [hp']; exact hi, by rw [hp']; exact hsym, ?_⟩
      intro x hx
      rw [hq'] at hx
      rw [hp', List.mem_singleton.mp hx]
      exact hguard
    · have hnd : (s.waitingQueue ++ [u]).Nodup := nodup_append_singleton hq hu
      rw [hpush] at hnd
      rcases List.nodup_cons.mp hnd with ⟨hn1, hnd2⟩
      rcases List.nodup_cons.mp hnd2 with ⟨hn2, hnd3⟩
      have h12 : u1 ≠ u2 := fun he => hn1 (he ▸ List.mem_cons_self _ _)
      have hmem : ∀ x, x ∈ u1 :: u2 :: rest → alGet s.activePairs x = none := by
        intro x hx
        have hx2 : x ∈ s.waitingQueue ++ [u] := hpush ▸ hx
        rcases List.mem_append.mp hx2 with hm | hm
        · exact hqu x hm
        · rw [List.mem_singleton.mp hm]
          exact hguard
      have h1 := hmem u1 (List.mem_cons_self _ _)
      have h2 := hmem u2 (List.mem_cons_of_mem _ (List.mem_cons_self _ _))
      refine ⟨by rw [hq']; exact hnd3,
        by rw [hp']; exact pairsIrrefl_insert_pair hi h12,
        by rw [hp']; exact pairsSym_insert_pair hsym h1 h2 h12, ?_⟩
      intro x hx
      rw [hq'] at hx
      have hx1 : ¬x = u1 := fun he => hn1 (List.mem_cons_of_mem _ (he ▸ hx))
      have hx2 : ¬x = u2 := fun he => hn2 (he ▸ hx)
      rw [hp', alGet_alSet, alGet_alSet, if_neg hx2, if_neg hx1]
      exact hmem x (List.mem_cons_of_mem _ (List.mem_cons_of_mem _ hx))

theorem skipOp_preserves_U {s : ServerState} (h : UInv s) (u : Nat) :
    UInv (handleSkipOrDisconnect s u) := by
  obtain ⟨hq, hi, hsym, hqu⟩ := h
  cases hp : alGet s.activePairs u with
  | none =>
      refine ⟨?_, ?_, ?_, ?_⟩
      · rw [handleSkipOrDisconnect_queue]
        exact nodup_removeFromQueue u hq
      · rw [handleSkipOrDisconnect_pairs_none hp]
        exact hi
      · rw [handleSkipOrDisconnect_pairs_none hp]
        exact hsym
      · intro x hx
        rw [handleSkipOrDisconnect_queue] at hx
        rw [handleSkipOrDisconnect_pairs_none hp]
        exact hqu x (mem_removeFromQueue hx)
  | some p =>
      refine ⟨?_, ?_, ?_, ?_⟩
      · rw [handleSkipOrDisconnect_queue]
        exact nodup_removeFromQueue u hq
      · rw [handleSkipOrDisconnect_pairs_some hp]
        exact pairsIrrefl_delete (pairsIrrefl_delete hi p) u
      · rw [handleSkipOrDisconnect_pairs_some hp]
        exact pairsSym_delete_pair hsym hp
      · intro x hx
        rw [handleSkipOrDisconnect_queue] at hx
        rw [handleSkipOrDisconnect_pairs_some hp]
        exact alGet_alDelete_none u
          (alGet_alDelete_none p (hqu x (mem_removeFromQueue hx)))

theorem close_preserves_U {s : ServerState} (h : UInv s) (u : Nat) :
    UInv (handleDisconnect s u) := by
  obtain ⟨hq, hi, hsym, hqu⟩ := h
  cases hp : alGet s.activePairs u with
  | none =>
      refine ⟨?_, ?_, ?_, ?_⟩
      · rw [handleDisconnect_queue]
        exact nodup_removeFromQueue u hq
      · rw [handleDisconnect_pairs_none hp]
        exact hi
      · rw [handleDisconnect_pairs_none hp]
        exact hsym
      · intro x hx
        rw [handleDisconnect_queue] at hx
        rw [handleDisconnect_pairs_none hp]
        exact hqu x (mem_removeFromQueue hx)
  | some p =>
      refine ⟨?_, ?_, ?_, ?_⟩
      · rw [handleDisconnect_queue]
        exact nodup_removeFromQueue u hq
      · rw [handleDisconnect_pairs_some hp]
        exact pairsIrrefl_delete (pairsIrrefl_delete hi p) u
      · rw [handleDisconnect_pairs_some hp]
        exact pairsSym_delete_pair hsym hp
      · intro x hx
        rw [handleDisconnect_queue] at hx
        rw [handleDisconnect_pairs_some hp]
        exact alGet_alDelete_none u
          (alGet_alDelete_none p (hqu x (mem_removeFromQueue hx)))

theorem stepEv_preserves_U {s : ServerState} (h : UInv s) {e : Event}
    (hok : eventOkU s e = true) : UInv (stepEv s e) := by
  cases e with
  | connect u => exact UInv_of_eq h rfl rfl
  | close u => exact close_preserves_U h u
  | msg u m =>
      cases m with
      | findPartner =>
          have hg : alGet s.activePairs u = none := by
            simp only [eventOkU, Bool.and_eq_true, decide_eq_true_eq,
              Option.isNone_iff_eq_none] at hok
            exact hok.2
          exact find_preserves_U h hg
      | offer sdp =>
          exact UInv_of_eq h (relay_queue_pairs s u sdp).1.1
            (relay_queue_pairs s u sdp).1.2
      | answer sdp =>
          exact UInv_of_eq h (relay_queue_pairs s u sdp).2.1.1
            (relay_queue_pairs s u sdp).2.1.2
      | iceCandidate cand =>
          exact UInv_of_eq h (relay_queue_pairs s u cand).2.2.1
            (relay_queue_pairs s u cand).2.2.2
      | skip => exact skipOp_preserves_U h u
      | disconnect => exact skipOp_preserves_U h u
      | unknown => exact UInv_of_eq h rfl rfl

theorem reachU_UInv {s : ServerState} (h : Reach eventOkU s) : UInv s := by
  induction h with
  | init =>
      refine ⟨List.nodup_nil, ?_, ?_, ?_⟩
      · intro a b hab
        exact absurd hab (by simp [alGet, initialState])
      · intro a b hab
        exact absurd hab (by simp [alGet, initialState])
      · intro x hx
        exact absurd hx (by simp [initialState])
  | step _ hok ih => exact stepEv_preserves_U ih hok

theorem reach_foldl {ok : ServerState → Event → Bool} :
    ∀ (es : List Event) (s : ServerState), Reach ok s →
      okTrace ok s es = true → Reach ok (es.foldl stepEv s) := by
  intro es
  induction es with
  | nil =>
      intro s hs _
      exact hs
  | cons e es ih =>
      intro s hs hok
      simp only [okTrace, Bool.and_eq_true] at hok
      exact ih (stepEv s e) (Reach.step hs hok.1) hok.2

theorem reach_runTrace {ok : ServerState → Event → Bool} {es : List Event}
    (h : okTrace ok initialState es = true) : Reach ok (runTrace es) :=
  reach_foldl es initialState Reach.init h

theorem skip_pairs_self_none (s : ServerState) (u : Nat) :
    alGet (handleSkipOrDisconnect s u).activePairs u = none := by
  cases hp : alGet s.activePairs u with
  | none =>
      rw [handleSkipOrDisconnect_pairs_none hp]
      exact hp
  | some p =>
      rw [handleSkipOrDisconnect_pairs_some hp, alGet_alDelete]
      simp

theorem skip_skip_coord {s : ServerState} (hq : s.waitingQueue.Nodup) (u : Nat) :
    coordState (handleSkipOrDisconnect (handleSkipOrDisconnect s u) u) =
      coordState (handleSkipOrDisconnect s u) := by
  have h1 := skip_pairs_self_none s u
  have hnm : u ∉ (handleSkipOrDisconnect s u).waitingQueue := by
    rw [handleSkipOrDisconnect_queue]
    exact not_mem_removeFromQueue_self u hq
  unfold coordState
  rw [Prod.mk.injEq, Prod.mk.injEq]
  exact ⟨handleSkipOrDisconnect_clients _ _,
    by rw [handleSkipOrDisconnect_queue]; exact removeFromQueue_of_not_mem hnm,
    handleSkipOrDisconnect_pairs_none h1⟩

/-- Claim C1, counterexample.  The claim states that no reachable state has a
participant simultaneously in the waiting queue and the pair registry, and
in particular that a find-partner from a currently paired participant is not
appended.  Both fail: after clients 1 and 2 are paired, client 1 (paired,
not in the queue) sends `find-partner` and the handler — which checks only
queue membership — appends it, yielding a reachable state in which id 1 is
in the waiting queue while `partnerOf(1) = 2` in the pair registry. -/
theorem paired_find_partner_enqueued_cex :
    (1 ∉ (runTrace [Event.connect 1, Event.connect 2,
        Event.msg 1 CMsg.findPartner, Event.msg 2 CMsg.findPartner]).waitingQueue ∧
      alGet (runTrace [Event.connect 1, Event.connect 2,
        Event.msg 1 CMsg.findPartner, Event.msg 2 CMsg.findPartner]).activePairs 1
        = some 2) ∧
    Reachable (runTrace [Event.connect 1, Event.connect 2,
        Event.msg 1 CMsg.findPartner, Event.msg 2 CMsg.findPartner,
        Event.msg 1 CMsg.findPartner]) ∧
    1 ∈ (runTrace [Event.connect 1, Event.connect 2,
        Event.msg 1 CMsg.findPartner, Event.msg 2 CMsg.findPartner,
        Event.msg 1 CMsg.findPartner]).waitingQueue ∧
    alGet (runTrace [Event.connect 1, Event.connect 2,
        Event.msg 1 CMsg.findPartner, Event.msg 2 CMsg.findPartner,
        Event.msg 1 CMsg.findPartner]).activePairs 1 = some 2 :=
  ⟨⟨by decide, by decide⟩, reach_runTrace (by decide), by decide, by decide⟩

/-- Claim C1, amended.  In every reachable state the waiting queue holds no
duplicate ids, and in every state reachable by traces in which each
`find-partner` comes from a sender with no entry in the pair registry, no id
is simultaneously in the waiting queue and the pair registry.  (Without that
restriction the disjointness fails, since the handler never consults the
pair registry.) -/
theorem queue_nodup_and_guarded_disjoint :
    (∀ s, Reachable s → s.waitingQueue.Nodup) ∧
    (∀ s, ReachableU s → ∀ u, u ∈ s.waitingQueue → alGet s.activePairs u = none) :=
  ⟨fun _ h => (reach_baseInv h).1, fun _ h => (reachU_UInv h).2.2.2⟩

/-- Witness for the amended Claim C1, at the reachable state produced by one
client entering the queue. -/
theorem queue_nodup_and_guarded_disjoint_witness :
    (runTrace [Event.connect 1, Event.msg 1 CMsg.findPartner]).waitingQueue.Nodup ∧
    alGet (runTrace [Event.connect 1,
      Event.msg 1 CMsg.findPartner]).activePairs 1 = none :=
  ⟨queue_nodup_and_guarded_disjoint.1 _ (reach_runTrace (by decide)),
   queue_nodup_and_guarded_disjoint.2 _ (reach_runTrace (by decide)) 1 (by decide)⟩

/-- Claim C2, counterexample.  The claim states that in every reachable state
the pair relation is symmetric.  It is not: after 1 and 2 are paired, 3
enters the queue and then the still-paired 1 sends `find-partner`; the
handler enqueues 1 and pairs 3 with 1, overwriting `partnerOf(1)` but
leaving `partnerOf(2) = 1` stale — so `partnerOf(2) = 1` while
`partnerOf(1) = 3 ≠ 2` in a reachable state. -/
theorem pair_symmetry_broken_cex :
    Reachable (runTrace [Event.connect 1, Event.connect 2, Event.connect 3,
        Event.msg 1 CMsg.findPartner, Event.msg 2 CMsg.findPartner,
        Event.msg 3 CMsg.findPartner, Event.msg 1 CMsg.findPartner]) ∧
    alGet (runTrace [Event.connect 1, Event.connect 2, Event.connect 3,
        Event.msg 1 CMsg.findPartner, Event.msg 2 CMsg.findPartner,
        Event.msg 3 CMsg.findPartner, Event.msg 1 CMsg.findPartner]).activePairs 2
      = some 1 ∧
    alGet (runTrace [Event.connect 1, Event.connect 2, Event.connect 3,
        Event.msg 1 CMsg.findPartner, Event.msg 2 CMsg.findPartner,
        Event.msg 3 CMsg.findPartner, Event.msg 1 CMsg.findPartner]).activePairs 1
      = some 3 ∧
    alGet (runTrace [Event.connect 1, Event.connect 2, Event.connect 3,
        Event.msg 1 CMsg.findPartner, Event.msg 2 CMsg.findPartner,
        Event.msg 3 CMsg.findPartner, Event.msg 1 CMsg.findPartner]).activePairs 1
      ≠ some 2 :=
  ⟨reach_runTrace (by decide), by decide, by decide, by decide⟩

/-- Claim C2, amended.  In every reachable state the pair relation is never
self-referential, and it is symmetric in every state reachable by traces in
which each `find-partner` comes from a sender with no entry in the pair
registry (a `find-partner` from a paired participant can re-pair one end and
leave the other end's entry stale, breaking symmetry). -/
theorem pairs_irrefl_and_guarded_sym :
    (∀ s, Reachable s → PairsIrrefl s.activePairs) ∧
    (∀ s, ReachableU s → PairsSym s.activePairs) :=
  ⟨fun _ h => (reach_baseInv h).2, fun _ h => (reachU_UInv h).2.2.1⟩

/-- Witness for the amended Claim C2, at the reachable state in which 1 and
2 have just been paired. -/
theorem pairs_irrefl_and_guarded_sym_witness :
    PairsIrrefl (runTrace [Event.connect 1, Event.connect 2,
      Event.msg 1 CMsg.findPartner, Event.msg 2 CMsg.findPartner]).activePairs ∧
    PairsSym (runTrace [Event.connect 1, Event.connect 2,
      Event.msg 1 CMsg.findPartner, Event.msg 2 CMsg.findPartner]).activePairs :=
  ⟨pairs_irrefl_and_guarded_sym.1 _ (reach_runTrace (by decide)),
   pairs_irrefl_and_guarded_sym.2 _ (reach_runTrace (by decide))⟩

/-- Claim C3.  The claim states that exactly one side of a pairing is
designated Initiator and only that side sends the offer.  The code violates
it: `pairUsers` sends a `paired` notification to BOTH sides, and every
recipient's `onPaired` handler unconditionally sets `isInitiator` to true
and sends an offer — so after 1 and 2 are paired, both sides are Initiator
and both send offers. -/
theorem both_sides_become_initiator :
    (1, SMsg.paired 2) ∈ (runTrace [Event.connect 1, Event.connect 2,
        Event.msg 1 CMsg.findPartner, Event.msg 2 CMsg.findPartner]).outbox ∧
    (2, SMsg.paired 1) ∈ (runTrace [Event.connect 1, Event.connect 2,
        Event.msg 1 CMsg.findPartner, Event.msg 2 CMsg.findPartner]).outbox ∧
    (appOnPaired appInit 5).isInitiator = true ∧
    (appOnPaired appInit 5).sentMsgs = [CMsg.offer 5] ∧
    (appOnPaired appInit 6).isInitiator = true ∧
    (appOnPaired appInit 6).sentMsgs = [CMsg.offer 6] :=
  ⟨by decide, by decide, rfl, rfl, rfl, rfl⟩

/-- Claim C4, counterexample.  The claim states that a candidate received
before the remote description is set is buffered and applied only once the
remote description becomes available.  `WebRTCService.addIceCandidate` has
no buffer: with a peer connection present and no remote description, an
incoming candidate is handed to the peer connection immediately — unlike
the behaviour the specification describes (`specAddIceCandidate`), which
queues it as pending. -/
theorem candidate_applied_before_remote_cex :
    (addIceCandidate { pcExists := true, remoteDescSet := false, applied := [] }
      (some 7)).applied = [7] ∧
    (addIceCandidate { pcExists := true, remoteDescSet := false, applied := [] }
      (some 7)).remoteDescSet = false ∧
    (specAddIceCandidate { remoteDescSet := false, pending := [], applied := [] }
      7).applied = [] ∧
    (specAddIceCandidate { remoteDescSet := false, pending := [], applied := [] }
      7).pending = [7] :=
  ⟨rfl, rfl, rfl, rfl⟩

/-- Claim C4, amended.  Whenever the peer connection exists, every non-null
candidate received is handed to the peer connection immediately, in exact
arrival order, with none lost or duplicated — regardless of whether a remote
description is set (there is no buffering); when no peer connection exists,
received candidates are dropped and the state is unchanged. -/
theorem candidates_applied_immediately_in_order :
    ∀ (r : RTCState) (cs : List (Option Nat)),
      (r.pcExists = true →
        (processCandidates r cs).applied = r.applied ++ cs.filterMap id) ∧
      (r.pcExists = false → processCandidates r cs = r) := by
  intro r cs
  induction cs generalizing r with
  | nil => exact ⟨fun _ => by simp [processCandidates], fun _ => rfl⟩
  | cons c cs ih =>
      constructor
      · intro hpc
        cases c with
        | none =>
            have : processCandidates r (none :: cs) = processCandidates r cs := by
              simp [processCandidates, addIceCandidate]
            rw [this]
            simpa using (ih r).1 hpc
        | some x =>
            have : processCandidates r (some x :: cs) =
                processCandidates { r with applied := r.applied ++ [x] } cs := by
              simp [processCandidates, addIceCandidate, hpc]
            rw [this, (ih { r with applied := r.applied ++ [x] }).1 hpc]
            simp
      · intro hpc
        cases c with
        | none =>
            have : processCandidates r (none :: cs) = processCandidates r cs := by
              simp [processCandidates, addIceCandidate]
            rw [this]
            exact (ih r).2 hpc
        | some x =>
            have : processCandidates r (some x :: cs) = processCandidates r cs := by
              simp [processCandidates, addIceCandidate, hpc]
            rw [this]
            exact (ih r).2 hpc

/-- Witness for the amended Claim C4: three arrivals (one null) at a client
with a peer connection and no remote description are applied in order. -/
theorem candidates_applied_immediately_in_order_witness :
    (processCandidates { pcExists := true, remoteDescSet := false, applied := [] }
      [some 4, none, some 9]).applied = [4, 9] ∧
    processCandidates { pcExists := false, remoteDescSet := false, applied := [] }
      [some 4] = { pcExists := false, remoteDescSet := false, applied := [] } := by
  constructor
  · rw [(candidates_applied_immediately_in_order
      { pcExists := true, remoteDescSet := false, applied := [] }
      [some 4, none, some 9]).1 rfl]
    rfl
  · exact (candidates_applied_immediately_in_order
      { pcExists := false, remoteDescSet := false, applied := [] } [some 4]).2 rfl

/-- Claim C5.  FIFO pairing: with three participants sending `find-partner`
in order 1, 2, 3 and no intervening disconnects, 1 and 2 are paired with
each other and 3 waits alone; and when the queue after the push holds fewer
than two entries, no pair is popped — the queue is exactly the pushed queue
and the pair registry is untouched. -/
theorem fifo_pairing_three_users :
    (alGet (runTrace [Event.connect 1, Event.connect 2, Event.connect 3,
        Event.msg 1 CMsg.findPartner, Event.msg 2 CMsg.findPartner,
        Event.msg 3 CMsg.findPartner]).activePairs 1 = some 2 ∧
      alGet (runTrace [Event.connect 1, Event.connect 2, Event.connect 3,
        Event.msg 1 CMsg.findPartner, Event.msg 2 CMsg.findPartner,
        Event.msg 3 CMsg.findPartner]).activePairs 2 = some 1 ∧
      alGet (runTrace [Event.connect 1, Event.connect 2, Event.connect 3,
        Event.msg 1 CMsg.findPartner, Event.msg 2 CMsg.findPartner,
        Event.msg 3 CMsg.findPartner]).activePairs 3 = none ∧
      (runTrace [Event.connect 1, Event.connect 2, Event.connect 3,
        Event.msg 1 CMsg.findPartner, Event.msg 2 CMsg.findPartner,
        Event.msg 3 CMsg.findPartner]).waitingQueue = [3]) ∧
    (∀ (s : ServerState) (u : Nat), u ∉ s.waitingQueue →
      (s.waitingQueue ++ [u]).length < 2 →
      (handleFindPartner s u).waitingQueue = s.waitingQueue ++ [u] ∧
      (handleFindPartner s u).activePairs = s.activePairs) := by
  refine ⟨⟨by decide, by decide, by decide, by decide⟩, ?_⟩
  intro s u hu hlen
  have hq0 : s.waitingQueue = [] := by
    cases hqe : s.waitingQueue with
    | nil => rfl
    | cons a as =>
        rw [hqe] at hlen
        simp only [List.length_append, List.length_cons, List.length_nil] at hlen
        exact absurd hlen (by omega)
  constructor <;> simp [handleFindPartner, hq0]

/-- Witness for Claim C5: a lone `find-partner` on the empty server leaves
the sender queued alone with no pair created. -/
theorem fifo_pairing_three_users_witness :
    (handleFindPartner initialState 9).waitingQueue = [9] ∧
    (handleFindPartner initialState 9).activePairs = [] := by
  have h := fifo_pairing_three_users.2 initialState 9 (by decide) (by decide)
  exact ⟨h.1, h.2⟩

/-- Claim C6.  An `offer`, `answer` or `ice-candidate` from a sender with no
entry in the pair registry is silently dropped: the handler returns the
state completely unchanged — nothing is sent to anyone (the outbox is part
of the state equality), no error goes to the sender, and the sender's
registry, queue and pair entries are untouched. -/
theorem relay_without_partner_is_noop :
    ∀ (s : ServerState) (u sdp : Nat), alGet s.activePairs u = none →
      handleMessage s u (CMsg.offer sdp) = s ∧
      handleMessage s u (CMsg.answer sdp) = s ∧
      handleMessage s u (CMsg.iceCandidate sdp) = s := by
  intro s u sdp hp
  refine ⟨?_, ?_, ?_⟩ <;> simp [handleMessage, hp]

/-- Witness for Claim C6: an offer from the unpaired client 1 changes
nothing. -/
theorem relay_without_partner_is_noop_witness :
    handleMessage (runTrace [Event.connect 1]) 1 (CMsg.offer 42)
        = runTrace [Event.connect 1] ∧
      handleMessage (runTrace [Event.connect 1]) 1 (CMsg.answer 42)
        = runTrace [Event.connect 1] ∧
      handleMessage (runTrace [Event.connect 1]) 1 (CMsg.iceCandidate 42)
        = runTrace [Event.connect 1] :=
  relay_without_partner_is_noop (runTrace [Event.connect 1]) 1 42 (by decide)

/-- Claim C7.  Unpairing is idempotent on the coordinator state: in every
reachable state, running the skip/disconnect handler twice for the same id
yields the same (clients, waiting queue, pair registry) triple as running it
once, and the second run on the already-unpaired id is an ordinary total
no-op branch, not an error. -/
theorem skip_idempotent_on_state :
    ∀ s : ServerState, Reachable s → ∀ u : Nat,
      coordState (handleSkipOrDisconnect (handleSkipOrDisconnect s u) u) =
        coordState (handleSkipOrDisconnect s u) := by
  intro s hs u
  exact skip_skip_coord (reach_baseInv hs).1 u

/-- Witness for Claim C7, at the reachable state where 1 and 2 are paired. -/
theorem skip_idempotent_on_state_witness :
    coordState (handleSkipOrDisconnect (handleSkipOrDisconnect
        (runTrace [Event.connect 1, Event.connect 2,
          Event.msg 1 CMsg.findPartner, Event.msg 2 CMsg.findPartner]) 1) 1) =
      coordState (handleSkipOrDisconnect
        (runTrace [Event.connect 1, Event.connect 2,
          Event.msg 1 CMsg.findPartner, Event.msg 2 CMsg.findPartner]) 1) :=
  skip_idempotent_on_state _ (reach_runTrace (by decide)) 1

/-- Claim C8, counterexample.  The claim states that no reconnection attempt
is ever made once the user has called `close`.  But `close()` merely nulls
the `ws` field — it sets no flag — and the close event of the socket it just
closed still runs the `onclose` handler installed by `connect()`, which
calls `attemptReconnect` unconditionally: after connect, open and an
explicit user `close`, the socket's close event schedules a reconnect in
2000 ms and consumes attempt 1. -/
theorem reconnect_scheduled_after_user_close_cex :
    (sigRun [SigEv.connectCall, SigEv.wsOpenEvent, SigEv.userClose]).ws = none ∧
    (sigRun [SigEv.connectCall, SigEv.wsOpenEvent, SigEv.userClose,
        SigEv.wsCloseEvent]).scheduled = [2000] ∧
    (sigRun [SigEv.connectCall, SigEv.wsOpenEvent, SigEv.userClose,
        SigEv.wsCloseEvent]).reconnectAttempts = 1 :=
  ⟨rfl, by decide, by decide⟩

/-- Claim C8, amended.  Reconnection uses exponential backoff: the delay for
the (n+1)-st attempt is the previous delay doubled, capped at 30000 ms, every
delay is at most 30000 ms, and attempts are bounded — `attemptReconnect` is a
no-op once `maxReconnectAttempts` (5) attempts are used, and otherwise uses
exactly one attempt and schedules exactly one timer.  However, an explicit
user `close` does NOT cancel reconnection (see the counterexample). -/
theorem backoff_doubling_capped_bounded :
    (∀ n : Nat, reconnectDelay (n + 1) = min (2 * reconnectDelay n) 30000) ∧
    (∀ n : Nat, reconnectDelay n ≤ 30000) ∧
    (∀ c : SigClient, maxReconnectAttempts ≤ c.reconnectAttempts →
      attemptReconnect c = c) ∧
    (∀ c : SigClient, c.reconnectAttempts < maxReconnectAttempts →
      (attemptReconnect c).reconnectAttempts = c.reconnectAttempts + 1 ∧
      (attemptReconnect c).scheduled =
        c.scheduled ++ [reconnectDelay (c.reconnectAttempts + 1)]) := by
  refine ⟨?_, ?_, ?_, ?_⟩
  · intro n
    have h2 : 1000 * 2 ^ (n + 1) = 2 * (1000 * 2 ^ n) := by ring
    rw [reconnectDelay, reconnectDelay, h2]
    rcases le_total (1000 * 2 ^ n) 30000 with hk | hk
    · rw [min_eq_left hk]
    · rw [min_eq_right hk, min_eq_right (by omega : (30000 : Nat) ≤ 2 * 30000),
        min_eq_right (by omega : (30000 : Nat) ≤ 2 * (1000 * 2 ^ n))]
  · intro n
    exact min_le_right _ _
  · intro c h
    simp [attemptReconnect, Nat.not_lt.mpr h]
  · intro c h
    simp [attemptReconnect, h]

/-- Witness for the amended Claim C8 at attempt counters 3 and 5. -/
theorem backoff_doubling_capped_bounded_witness :
    reconnectDelay 4 = min (2 * reconnectDelay 3) 30000 ∧
    reconnectDelay 6 ≤ 30000 ∧
    attemptReconnect { sigInit with reconnectAttempts := 5 }
      = { sigInit with reconnectAttempts := 5 } ∧
    (attemptReconnect { sigInit with reconnectAttempts := 3 }).reconnectAttempts = 4 :=
  ⟨backoff_doubling_capped_bounded.1 3,
   backoff_doubling_capped_bounded.2.1 6,
   backoff_doubling_capped_bounded.2.2.1 _ (by decide),
   (backoff_doubling_capped_bounded.2.2.2 _ (by decide)).1⟩

/-- Claim C9.  `skipPartner` sends `skip` and then immediately and
automatically `find-partner`, so the skipping side re-enters the waiting
queue with no further user action; the notified partner's `partner-left`
handling sends nothing, and on the server the notified partner is not
re-queued — after A (paired with B, queue empty) skips and re-requests, the
queue is exactly [A], B is not queued, and neither id is paired. -/
theorem skipper_requeued_partner_not :
    (∀ c : SigClient, c.ws = some ReadyState.opened →
      (appSkipPartner c).sent = c.sent ++ [CMsg.skip, CMsg.findPartner]) ∧
    (∀ c : SigClient, (handlePartnerLeft c).sent = c.sent) ∧
    (∀ (s : ServerState) (A B : Nat),
      alGet s.activePairs A = some B → A ≠ B → s.waitingQueue = [] →
      (handleMessage (handleMessage s A CMsg.skip) A CMsg.findPartner).waitingQueue
        = [A] ∧
      B ∉ (handleMessage (handleMessage s A CMsg.skip) A
        CMsg.findPartner).waitingQueue ∧
      alGet (handleMessage (handleMessage s A CMsg.skip) A
        CMsg.findPartner).activePairs A = none ∧
      alGet (handleMessage (handleMessage s A CMsg.skip) A
        CMsg.findPartner).activePairs B = none) := by
  refine ⟨?_, ?_, ?_⟩
  · intro c hws
    simp [appSkipPartner, sigFindPartner, sigSkip, sigSend, hws]
  · intro c
    rfl
  · intro s A B hAB hne hq0
    have hq1 : (handleSkipOrDisconnect s A).waitingQueue = [] := by
      rw [handleSkipOrDisconnect_queue, hq0]
      rfl
    have hp1 : (handleSkipOrDisconnect s A).activePairs =
        alDelete (alDelete s.activePairs B) A :=
      handleSkipOrDisconnect_pairs_some hAB
    have hA : alGet (handleSkipOrDisconnect s A).activePairs A = none := by
      rw [hp1, alGet_alDelete]
      simp
    have hB : alGet (handleSkipOrDisconnect s A).activePairs B = none := by
      rw [hp1, alGet_alDelete, if_neg (Ne.symm hne)]
      exact alGet_alDelete_self _ _
    have hqA : (handleFindPartner (handleSkipOrDisconnect s A) A).waitingQueue
        = [A] := by
      simp [handleFindPartner, hq1]
    have hpA : (handleFindPartner (handleSkipOrDisconnect s A) A).activePairs
        = (handleSkipOrDisconnect s A).activePairs := by
      simp [handleFindPartner, hq1]
    show (handleFindPartner (handleSkipOrDisconnect s A) A).waitingQueue = [A] ∧
      B ∉ (handleFindPartner (handleSkipOrDisconnect s A) A).waitingQueue ∧
      alGet (handleFindPartner (handleSkipOrDisconnect s A) A).activePairs A
        = none ∧
      alGet (handleFindPartner (handleSkipOrDisconnect s A) A).activePairs B
        = none
    refine ⟨hqA, ?_, ?_, ?_⟩
    · rw [hqA]
      simp [Ne.symm hne]
    · rw [hpA]
      exact hA
    · rw [hpA]
      exact hB

/-- Witness for Claim C9: the client with an open socket, and the server
state where 1 and 2 are paired with an empty queue. -/
theorem skipper_requeued_partner_not_witness :
    (appSkipPartner { sigInit with ws := some ReadyState.opened }).sent
      = [CMsg.skip, CMsg.findPartner] ∧
    (handlePartnerLeft sigInit).sent = [] ∧
    (handleMessage (handleMessage (runTrace [Event.connect 1, Event.connect 2,
        Event.msg 1 CMsg.findPartner, Event.msg 2 CMsg.findPartner]) 1 CMsg.skip) 1
        CMsg.findPartner).waitingQueue = [1] ∧
    alGet (handleMessage (handleMessage (runTrace [Event.connect 1, Event.connect 2,
        Event.msg 1 CMsg.findPartner, Event.msg 2 CMsg.findPartner]) 1 CMsg.skip) 1
        CMsg.findPartner).activePairs 2 = none :=
  ⟨skipper_requeued_partner_not.1 _ rfl,
   skipper_requeued_partner_not.2.1 sigInit,
   (skipper_requeued_partner_not.2.2 _ 1 2 (by decide) (by decide) (by decide)).1,
   (skipper_requeued_partner_not.2.2 _ 1 2 (by decide) (by decide) (by decide)).2.2.2⟩

/-- Claim C10.  `SignalingService.send` with no socket, or a socket not in
the OPEN state, returns `false` and leaves the client state — including the
log of transmitted messages — completely unchanged (nothing is buffered or
retried); `skip()` and `disconnect()` nevertheless always null the local
`partnerId`, whether or not their message was transmitted. -/
theorem send_without_open_socket_drops :
    (∀ (c : SigClient) (m : CMsg), c.ws ≠ some ReadyState.opened →
      sigSend c m = (c, false)) ∧
    (∀ c : SigClient,
      (sigSkip c).partnerId = none ∧ (sigDisconnect c).partnerId = none) := by
  constructor
  · intro c m hws
    cases hw : c.ws with
    | none => simp [sigSend, hw]
    | some r =>
        cases r with
        | opened => exact absurd hw hws
        | connecting => simp [sigSend, hw]
        | closing => simp [sigSend, hw]
        | closedState => simp [sigSend, hw]
  · intro c
    exact ⟨rfl, rfl⟩

/-- Witness for Claim C10: a client whose socket field is null. -/
theorem send_without_open_socket_drops_witness :
    sigSend sigInit CMsg.findPartner = (sigInit, false) ∧
    (sigSkip sigInit).partnerId = none ∧
    (sigDisconnect sigInit).partnerId = none :=
  ⟨send_without_open_socket_drops.1 sigInit CMsg.findPartner (by decide),
   (send_without_open_socket_drops.2 sigInit).1,
   (send_without_open_socket_drops.2 sigInit).2⟩

end OmniConnect
